import Mathlib

/-!
Verification of the feature/label materialization step of
`examples/benchmark_ehrshot_xgboost.ipynb` (cell 11).

The notebook code being modelled:

    num_features = samples.input_processors["feature"]._next_index
    X, y, splits = [], [], []
    for sample in samples:
        vec = np.zeros(num_features, dtype=int)
        vec[sample["feature"].numpy()] = 1  # multi-hot encoding
        X.append(vec)
        y.append(sample["label"].item())
        splits.append(sample["split"])
    X = np.array(X); y = np.array(y); splits = np.array(splits)
    if task.startswith("lab_"):
        y[y >= 1] = 1
    X_train = X[splits == "train"]; y_train = y[splits == "train"]
    X_val   = X[splits == "val"];   y_val   = y[splits == "val"]
    X_test  = X[splits == "test"];  y_test  = y[splits == "test"]

The embedding keeps NumPy's actual indexing semantics for the fancy
assignment `vec[indices] = 1` on a 1-D array of length `n`: an index `i`
with `-n ≤ i < 0` silently addresses column `i + n`, while an index with
`i < -n` or `i ≥ n` raises `IndexError`.  Machine integers are modelled
as `Int` (labels, feature indices) and `Nat` (sizes, matrix entries);
the raised exception is modelled as `Except.error`.
-/

/-- One per-entity sample as yielded by the external sample source:
the integer index tensor `sample["feature"]`, the scalar label
`sample["label"].item()`, and the split tag `sample["split"]`. -/
structure Sample where
  feature : List Int
  label : Int
  split : String
deriving DecidableEq

/-- A default sample used only as the `List.getD` fallback in statements. -/
def dummySample : Sample := ⟨[], 0, ""⟩

/-- NumPy's effective index for element assignment on a 1-D array of
length `n`: a negative in-range index `i` addresses column `i + n`. -/
def normIdx (n : Nat) (i : Int) : Nat :=
  if i < 0 then (i + n).toNat else i.toNat

/-- The fancy assignment `vec[indices] = 1`, one index at a time: an index
inside `[-n, n)` sets the addressed column to 1, any other index raises
`IndexError` ("index out of bounds"). -/
def applyIndices (n : Nat) (vec : List Nat) : List Int → Except String (List Nat)
  | [] => .ok vec
  | i :: rest =>
    if -(n : Int) ≤ i ∧ i < n then applyIndices n (vec.set (normIdx n i) 1) rest
    else .error "index out of bounds"

/-- `vec = np.zeros(num_features, dtype=int); vec[sample["feature"]] = 1`:
the multi-hot row built for one sample. -/
def multiHot (n : Nat) (idxs : List Int) : Except String (List Nat) :=
  applyIndices n (List.replicate n 0) idxs

/-- The three parallel outputs of the materialization loop:
feature matrix `X`, label vector `y`, and split-tag vector `splits`. -/
structure Materialized where
  X : List (List Nat)
  y : List Int
  splits : List String
deriving DecidableEq

/-- The materialization loop: for each sample in order, build its multi-hot
row and append the row, the label and the split tag to the three parallel
lists.  A raised `IndexError` aborts the loop and propagates. -/
def materializeRaw (n : Nat) : List Sample → Except String Materialized
  | [] => .ok ⟨[], [], []⟩
  | s :: rest =>
    match multiHot n s.feature with
    | .error e => .error e
    | .ok vec =>
      match materializeRaw n rest with
      | .error e => .error e
      | .ok m => .ok ⟨vec :: m.X, s.label :: m.y, s.split :: m.splits⟩

/-- `task.startswith("lab_")`: the naming convention that selects the
binarizable task category. -/
def startsWithLab (task : String) : Bool :=
  match task.data with
  | c1 :: c2 :: c3 :: c4 :: _ => c1 = 'l' && c2 = 'a' && c3 = 'b' && c4 = '_'
  | _ => false

/-- `if task.startswith("lab_"): y[y >= 1] = 1` — in-place thresholding of
the label vector, applied only for the recognized task category. -/
def binarize (task : String) (y : List Int) : List Int :=
  if startsWithLab task then y.map (fun l => if 1 ≤ l then 1 else l) else y

/-- The whole of cell 11 up to the split filtering: run the loop, then
binarize the label vector when the task name starts with `lab_`. -/
def materialize (task : String) (n : Nat) (samples : List Sample) :
    Except String Materialized :=
  match materializeRaw n samples with
  | .error e => .error e
  | .ok m => .ok ⟨m.X, binarize task m.y, m.splits⟩

/-- The rows of the three parallel arrays, zipped for mask filtering. -/
def rowTriples (m : Materialized) : List (List Nat × Int × String) :=
  m.X.zip (m.y.zip m.splits)

/-- `X[splits == tag], y[splits == tag]`: boolean-mask selection of the
rows and labels whose split tag equals `tag`, in order. -/
def partitionOf (m : Materialized) (tag : String) : List (List Nat) × List Int :=
  (((rowTriples m).filter (fun t => t.2.2 == tag)).map (fun t => t.1),
   ((rowTriples m).filter (fun t => t.2.2 == tag)).map (fun t => t.2.1))

instance {ε α : Type} [DecidableEq ε] [DecidableEq α] : DecidableEq (Except ε α) := fun a b =>
  match a, b with
  | .error e₁, .error e₂ =>
      if h : e₁ = e₂ then .isTrue (by rw [h]) else .isFalse (fun hc => h (Except.error.inj hc))
  | .error _, .ok _ => .isFalse (fun hc => Except.noConfusion hc)
  | .ok _, .error _ => .isFalse (fun hc => Except.noConfusion hc)
  | .ok a₁, .ok a₂ =>
      if h : a₁ = a₂ then .isTrue (by rw [h]) else .isFalse (fun hc => h (Except.ok.inj hc))

/-- The spec's worked example scenario (§8): three samples, feature space 3. -/
def exSamples : List Sample :=
  [⟨[0, 2], 0, "train"⟩, ⟨[1], 2, "test"⟩, ⟨[], 0, "train"⟩]

/-- The expected materialization of `exSamples` for a `lab_` task. -/
def exM : Materialized :=
  ⟨[[1, 0, 1], [0, 1, 0], [0, 0, 0]], [0, 1, 0], ["train", "test", "train"]⟩

example : materialize "lab_anemia" 3 exSamples = .ok exM := by decide
example : materialize "guo_icu" 3 exSamples =
    .ok ⟨exM.X, [0, 2, 0], exM.splits⟩ := by decide
example : partitionOf exM "train" = ([[1, 0, 1], [0, 0, 0]], [0, 0]) := by decide
example : partitionOf exM "test" = ([[0, 1, 0]], [1]) := by decide
example : materialize "guo_icu" 3 [⟨[-1], 0, "train"⟩] =
    .ok ⟨[[0, 0, 1]], [0], ["train"]⟩ := by decide
example : materialize "guo_icu" 3 [⟨[3], 0, "train"⟩] =
    .error "index out of bounds" := by decide
example : materialize "guo_icu" 0 [⟨[0], 0, "train"⟩] =
    .error "index out of bounds" := by decide

/-! ## Helper lemmas about `applyIndices` and `multiHot` -/

lemma normIdx_lt (n : Nat) (i : Int) (h : -(n : Int) ≤ i ∧ i < n) : normIdx n i < n := by
  unfold normIdx
  split <;> omega

lemma applyIndices_ok (n : Nat) (idxs : List Int)
    (hin : ∀ i ∈ idxs, -(n : Int) ≤ i ∧ i < n) :
    ∀ vec : List Nat, vec.length = n →
      ∃ v, applyIndices n vec idxs = .ok v ∧ v.length = n ∧
        ∀ c, c < n →
          v.getD c 0 = if ∃ i ∈ idxs, normIdx n i = c then 1 else vec.getD c 0 := by
  induction idxs with
  | nil =>
    intro vec hlen
    refine ⟨vec, rfl, hlen, ?_⟩
    intro c _
    simp
  | cons i rest ih =>
    intro vec hlen
    have hi : -(n : Int) ≤ i ∧ i < n := hin i (List.mem_cons_self i rest)
    have hrest : ∀ j ∈ rest, -(n : Int) ≤ j ∧ j < n :=
      fun j hj => hin j (List.mem_cons_of_mem i hj)
    have hlen' : (vec.set (normIdx n i) 1).length = n := by
      rw [List.length_set]; exact hlen
    obtain ⟨v, hv, hvlen, hchar⟩ := ih hrest (vec.set (normIdx n i) 1) hlen'
    refine ⟨v, ?_, hvlen, ?_⟩
    · show applyIndices n vec (i :: rest) = .ok v
      unfold applyIndices
      rw [if_pos hi]
      exact hv
    · intro c hc
      have hc1 : c < (vec.set (normIdx n i) 1).length := by rw [hlen']; exact hc
      have hc2 : c < vec.length := by rw [hlen]; exact hc
      have hset : (vec.set (normIdx n i) 1).getD c 0 =
          if normIdx n i = c then 1 else vec.getD c 0 := by
        rw [List.getD_eq_getElem _ _ hc1, List.getElem_set, List.getD_eq_getElem _ _ hc2]
      rw [hchar c hc, hset]
      by_cases hr : ∃ j ∈ rest, normIdx n j = c
      · have : ∃ j ∈ i :: rest, normIdx n j = c := by
          obtain ⟨j, hj, hjc⟩ := hr
          exact ⟨j, List.mem_cons_of_mem i hj, hjc⟩
        simp [hr, this]
      · by_cases hh : normIdx n i = c
        · have : ∃ j ∈ i :: rest, normIdx n j = c := ⟨i, List.mem_cons_self i rest, hh⟩
          simp [hr, hh, this]
        · have : ¬∃ j ∈ i :: rest, normIdx n j = c := by
            rintro ⟨j, hj, hjc⟩
            rcases List.mem_cons.mp hj with rfl | hj'
            · exact hh hjc
            · exact hr ⟨j, hj', hjc⟩
          simp [hr, hh, this]

lemma applyIndices_err (n : Nat) (idxs : List Int)
    (hbad : ∃ i ∈ idxs, ¬(-(n : Int) ≤ i ∧ i < n)) :
    ∀ vec : List Nat, applyIndices n vec idxs = .error "index out of bounds" := by
  induction idxs with
  | nil =>
    obtain ⟨i, hi, _⟩ := hbad
    exact absurd hi (List.not_mem_nil i)
  | cons i rest ih =>
    intro vec
    by_cases hi : -(n : Int) ≤ i ∧ i < n
    · obtain ⟨j, hj, hjbad⟩ := hbad
      have hj' : j ∈ rest := by
        rcases List.mem_cons.mp hj with rfl | hj'
        · exact absurd hi hjbad
        · exact hj'
      show applyIndices n vec (i :: rest) = .error "index out of bounds"
      unfold applyIndices
      rw [if_pos hi]
      exact ih ⟨j, hj', hjbad⟩ _
    · show applyIndices n vec (i :: rest) = .error "index out of bounds"
      unfold applyIndices
      rw [if_neg hi]

lemma applyIndices_err_msg (n : Nat) (idxs : List Int) :
    ∀ (vec : List Nat) (e : String), applyIndices n vec idxs = .error e →
      e = "index out of bounds" := by
  induction idxs with
  | nil =>
    intro vec e h
    exact absurd h (by simp [applyIndices])
  | cons i rest ih =>
    intro vec e h
    unfold applyIndices at h
    split at h
    · exact ih _ _ h
    · exact (Except.error.inj h).symm

/-! ## Helper lemmas about `materializeRaw` and `materialize` -/

lemma materializeRaw_ok_fields (n : Nat) :
    ∀ (samples : List Sample) (m : Materialized),
      materializeRaw n samples = .ok m →
      m.y = samples.map (fun s => s.label) ∧
      m.splits = samples.map (fun s => s.split) ∧
      m.X.length = samples.length ∧
      ∀ k, k < samples.length →
        multiHot n ((samples.getD k dummySample).feature) = .ok (m.X.getD k []) := by
  intro samples
  induction samples with
  | nil =>
    intro m hok
    have hm : m = ⟨[], [], []⟩ := (Except.ok.inj hok).symm
    subst hm
    refine ⟨rfl, rfl, rfl, ?_⟩
    intro k hk
    exact absurd hk (by simp)
  | cons s rest ih =>
    intro m hok
    unfold materializeRaw at hok
    cases hmh : multiHot n s.feature with
    | error e => rw [hmh] at hok; exact absurd hok (by simp)
    | ok vec =>
      rw [hmh] at hok
      cases hrec : materializeRaw n rest with
      | error e => rw [hrec] at hok; exact absurd hok (by simp)
      | ok m' =>
        rw [hrec] at hok
        have hm : m = ⟨vec :: m'.X, s.label :: m'.y, s.split :: m'.splits⟩ :=
          (Except.ok.inj hok).symm
        subst hm
        obtain ⟨hy, hs, hlen, hrows⟩ := ih m' hrec
        refine ⟨by simp [hy], by simp [hs], by simp [hlen], ?_⟩
        intro k hk
        cases k with
        | zero => simpa using hmh
        | succ k' =>
          have hk' : k' < rest.length := by simpa using hk
          simpa using hrows k' hk'

lemma materializeRaw_err (n : Nat) :
    ∀ samples : List Sample,
      (∃ s ∈ samples, ∃ i ∈ s.feature, ¬(-(n : Int) ≤ i ∧ i < n)) →
      materializeRaw n samples = .error "index out of bounds" := by
  intro samples
  induction samples with
  | nil =>
    rintro ⟨s, hs, -⟩
    exact absurd hs (List.not_mem_nil s)
  | cons s rest ih =>
    rintro ⟨t, ht, i, hi, hbad⟩
    rcases List.mem_cons.mp ht with rfl | ht'
    · have hmh : multiHot n t.feature = .error "index out of bounds" :=
        applyIndices_err n t.feature ⟨i, hi, hbad⟩ _
      show materializeRaw n (t :: rest) = .error "index out of bounds"
      unfold materializeRaw
      rw [hmh]
    · show materializeRaw n (s :: rest) = .error "index out of bounds"
      unfold materializeRaw
      cases hmh : multiHot n s.feature with
      | error e =>
        rw [applyIndices_err_msg n s.feature _ e hmh]
      | ok vec =>
        rw [ih ⟨t, ht', i, hi, hbad⟩]

lemma materialize_ok_parts (task : String) (n : Nat) (samples : List Sample)
    (m : Materialized) (hok : materialize task n samples = .ok m) :
    ∃ mr, materializeRaw n samples = .ok mr ∧
      m.X = mr.X ∧ m.y = binarize task mr.y ∧ m.splits = mr.splits := by
  unfold materialize at hok
  cases hraw : materializeRaw n samples with
  | error e => rw [hraw] at hok; exact absurd hok (by simp)
  | ok mr =>
    rw [hraw] at hok
    have hm : m = ⟨mr.X, binarize task mr.y, mr.splits⟩ := (Except.ok.inj hok).symm
    subst hm
    exact ⟨mr, rfl, rfl, rfl, rfl⟩

lemma materialize_err (task : String) (n : Nat) (samples : List Sample)
    (hbad : ∃ s ∈ samples, ∃ i ∈ s.feature, ¬(-(n : Int) ≤ i ∧ i < n)) :
    materialize task n samples = .error "index out of bounds" := by
  unfold materialize
  rw [materializeRaw_err n samples hbad]

/-! ## Derived helper lemmas -/

lemma normIdx_nonneg_iff (n c : Nat) (idxs : List Int)
    (hin : ∀ i ∈ idxs, 0 ≤ i) :
    (∃ i ∈ idxs, normIdx n i = c) ↔ (c : Int) ∈ idxs := by
  constructor
  · rintro ⟨i, hi, hni⟩
    have h0 := hin i hi
    have hic : i = (c : Int) := by
      unfold normIdx at hni
      split at hni <;> omega
    rwa [hic] at hi
  · intro hc
    refine ⟨(c : Int), hc, ?_⟩
    unfold normIdx
    split <;> omega

lemma binarize_getD (task : String) (y : List Int) (k : Nat)
    (hbin : startsWithLab task = true) (hk : k < y.length) :
    (binarize task y).getD k 0 = if 1 ≤ y.getD k 0 then 1 else y.getD k 0 := by
  unfold binarize
  rw [hbin]
  simp only [if_true]
  have hk' : k < (y.map (fun l => if 1 ≤ l then 1 else l)).length := by
    rw [List.length_map]; exact hk
  rw [List.getD_eq_getElem _ _ hk', List.getElem_map, List.getD_eq_getElem _ _ hk]

lemma getD_map_label (samples : List Sample) (k : Nat) (hk : k < samples.length) :
    (samples.map (fun s => s.label)).getD k 0 = (samples.getD k dummySample).label := by
  have hk' : k < (samples.map (fun s => s.label)).length := by
    rw [List.length_map]; exact hk
  rw [List.getD_eq_getElem _ _ hk', List.getElem_map, List.getD_eq_getElem _ _ hk]

lemma getD_map_split (samples : List Sample) (k : Nat) (hk : k < samples.length) :
    (samples.map (fun s => s.split)).getD k "" = (samples.getD k dummySample).split := by
  have hk' : k < (samples.map (fun s => s.split)).length := by
    rw [List.length_map]; exact hk
  rw [List.getD_eq_getElem _ _ hk', List.getElem_map, List.getD_eq_getElem _ _ hk]

lemma getD_mem (samples : List Sample) (k : Nat) (hk : k < samples.length) :
    samples.getD k dummySample ∈ samples := by
  rw [List.getD_eq_getElem _ _ hk]
  exact List.getElem_mem hk

lemma filter_three_length {α : Type} (p q r : α → Bool) (l : List α)
    (h : ∀ x ∈ l, ((if p x then 1 else 0) + (if q x then 1 else 0) +
      (if r x then 1 else 0) : Nat) = 1) :
    (l.filter p).length + (l.filter q).length + (l.filter r).length = l.length := by
  induction l with
  | nil => simp
  | cons x xs ih =>
    have hx := h x (List.mem_cons_self x xs)
    have ih' := ih (fun z hz => h z (List.mem_cons_of_mem x hz))
    cases hp : p x <;> cases hq : q x <;> cases hr : r x <;>
      simp only [hp, hq, hr, if_true, if_false, Bool.false_eq_true] at hx <;>
      simp [List.filter_cons, hp, hq, hr] <;> omega

lemma zip_zip_map (xs : List (List Nat)) :
    ∀ (ys : List Int) (zs : List String), ys.length = zs.length →
      (xs.zip (ys.zip zs)).map (fun t => (t.1, t.2.1)) = xs.zip ys := by
  induction xs with
  | nil => intro ys zs _; simp
  | cons x xt ih =>
    intro ys zs h
    cases ys with
    | nil => simp
    | cons b bt =>
      cases zs with
      | nil => simp at h
      | cons c ct =>
        simp only [List.zip_cons_cons, List.map_cons]
        rw [ih bt ct (by simpa using h)]

lemma applyIndices_binary (n : Nat) (idxs : List Int) :
    ∀ vec v : List Nat, applyIndices n vec idxs = .ok v →
      (∀ a ∈ vec, a = 0 ∨ a = 1) → ∀ a ∈ v, a = 0 ∨ a = 1 := by
  induction idxs with
  | nil =>
    intro vec v h hvec
    have : vec = v := Except.ok.inj h
    rwa [this] at hvec
  | cons i rest ih =>
    intro vec v h hvec
    unfold applyIndices at h
    split at h
    · refine ih _ v h ?_
      intro a ha
      rcases List.mem_or_eq_of_mem_set ha with ha' | rfl
      · exact hvec a ha'
      · exact Or.inr rfl
    · exact absurd h (by simp)

lemma multiHot_binary (n : Nat) (idxs : List Int) (v : List Nat)
    (h : multiHot n idxs = .ok v) : ∀ a ∈ v, a = 0 ∨ a = 1 := by
  refine applyIndices_binary n idxs _ v h ?_
  intro a ha
  exact Or.inl (List.eq_of_mem_replicate ha)

lemma binarize_length (task : String) (y : List Int) :
    (binarize task y).length = y.length := by
  unfold binarize
  split <;> simp

lemma materialize_lengths (task : String) (n : Nat) (samples : List Sample)
    (m : Materialized) (hok : materialize task n samples = .ok m) :
    m.X.length = samples.length ∧ m.y.length = samples.length ∧
      m.splits.length = samples.length := by
  obtain ⟨mr, hraw, hX, hy, hs⟩ := materialize_ok_parts task n samples m hok
  obtain ⟨hy', hs', hlen, -⟩ := materializeRaw_ok_fields n samples mr hraw
  refine ⟨by rw [hX, hlen], ?_, ?_⟩
  · rw [hy, binarize_length, hy', List.length_map]
  · rw [hs, hs', List.length_map]

lemma rowTriples_length (task : String) (n : Nat) (samples : List Sample)
    (m : Materialized) (hok : materialize task n samples = .ok m) :
    (rowTriples m).length = samples.length := by
  obtain ⟨h1, h2, h3⟩ := materialize_lengths task n samples m hok
  simp [rowTriples, List.length_zip, h1, h2, h3]

lemma mem_rowTriples_split (m : Materialized) :
    ∀ t ∈ rowTriples m, t.2.2 ∈ m.splits := by
  rintro ⟨a, b, c⟩ ht
  exact (List.of_mem_zip (List.of_mem_zip ht).2).2

lemma splits_tag_of_mem (task : String) (n : Nat) (samples : List Sample)
    (m : Materialized) (hok : materialize task n samples = .ok m)
    (htags : ∀ s ∈ samples, s.split = "train" ∨ s.split = "val" ∨ s.split = "test")
    (x : String) (hx : x ∈ m.splits) :
    x = "train" ∨ x = "val" ∨ x = "test" := by
  obtain ⟨mr, hraw, -, -, hs⟩ := materialize_ok_parts task n samples m hok
  obtain ⟨-, hs', -, -⟩ := materializeRaw_ok_fields n samples mr hraw
  rw [hs, hs'] at hx
  obtain ⟨s, hsmem, rfl⟩ := List.mem_map.mp hx
  exact htags s hsmem

lemma tag_sum_one (x : String)
    (hx : x = "train" ∨ x = "val" ∨ x = "test") :
    ((if x == "train" then 1 else 0) + (if x == "val" then 1 else 0) +
      (if x == "test" then 1 else 0) : Nat) = 1 := by
  rcases hx with rfl | rfl | rfl <;> decide

lemma tag_sum_one_eq (x : String)
    (hx : x = "train" ∨ x = "val" ∨ x = "test") :
    ((if x = "train" then 1 else 0) + (if x = "val" then 1 else 0) +
      (if x = "test" then 1 else 0) : Nat) = 1 := by
  rcases hx with rfl | rfl | rfl <;> decide

/-! ## Claim theorems -/

/-- C1: for every finite input sequence of samples whose feature indices all
lie in `[0, feature_space_size)`, row `k` of the produced feature matrix has
length `feature_space_size` and value 1 exactly at the columns in sample `k`'s
`feature_indices` set and 0 at every other column. -/
theorem c1_feature_matrix_multihot (task : String) (n : Nat) (samples : List Sample)
    (m : Materialized) (k c : Nat)
    (hin : ∀ s ∈ samples, ∀ i ∈ s.feature, 0 ≤ i ∧ i < (n : Int))
    (hok : materialize task n samples = .ok m)
    (hk : k < samples.length) (hc : c < n) :
    (m.X.getD k []).length = n ∧
      ((m.X.getD k []).getD c 0 =
        if (c : Int) ∈ (samples.getD k dummySample).feature then 1 else 0) := by
  obtain ⟨mr, hraw, hX, -, -⟩ := materialize_ok_parts task n samples m hok
  obtain ⟨-, -, -, hrows⟩ := materializeRaw_ok_fields n samples mr hraw
  have hrow := hrows k hk
  have hsmem : samples.getD k dummySample ∈ samples := getD_mem samples k hk
  have hin' : ∀ i ∈ (samples.getD k dummySample).feature, -(n : Int) ≤ i ∧ i < n := by
    intro i hi
    have := hin _ hsmem i hi
    omega
  obtain ⟨v, hv, hvlen, hchar⟩ :=
    applyIndices_ok n (samples.getD k dummySample).feature hin'
      (List.replicate n 0) (List.length_replicate n 0)
  have hveq : v = mr.X.getD k [] := by
    have hv' : multiHot n (samples.getD k dummySample).feature = .ok v := hv
    rw [hv'] at hrow
    exact Except.ok.inj hrow
  rw [hX, ← hveq]
  refine ⟨hvlen, ?_⟩
  rw [hchar c hc]
  have hnn : ∀ i ∈ (samples.getD k dummySample).feature, 0 ≤ i :=
    fun i hi => (hin _ hsmem i hi).1
  have hcond := normIdx_nonneg_iff n c (samples.getD k dummySample).feature hnn
  have hrep : (List.replicate n 0).getD c 0 = 0 := by
    have hcl : c < (List.replicate n 0).length := by simpa using hc
    rw [List.getD_eq_getElem _ _ hcl, List.getElem_replicate]
  rw [hrep]
  exact if_congr hcond rfl rfl

/-- Witness for C1 at the spec's §8 example scenario, row 0, column 2. -/
theorem c1_witness :
    (exM.X.getD 0 []).length = 3 ∧
      ((exM.X.getD 0 []).getD 2 0 =
        if (2 : Int) ∈ (exSamples.getD 0 dummySample).feature then 1 else 0) :=
  c1_feature_matrix_multihot "lab_anemia" 3 exSamples exM 0 2
    (by decide) (by decide) (by decide) (by decide)

/-- C2: for every input sequence that materializes successfully, the number of
feature-matrix rows, the label-vector length and the split-tag-vector length
all equal the length of the input sequence. -/
theorem c2_parallel_lengths (task : String) (n : Nat) (samples : List Sample)
    (m : Materialized) (hok : materialize task n samples = .ok m) :
    m.X.length = samples.length ∧ m.y.length = samples.length ∧
      m.splits.length = samples.length :=
  materialize_lengths task n samples m hok

/-- Witness for C2 at the spec's §8 example scenario. -/
theorem c2_witness :
    exM.X.length = exSamples.length ∧ exM.y.length = exSamples.length ∧
      exM.splits.length = exSamples.length :=
  c2_parallel_lengths "lab_anemia" 3 exSamples exM (by decide)

/-- C3: for a binarizable task (name starting with `lab_`) and nonnegative
input labels, output label `k` is 1 when input label `k` is at least 1 and 0
otherwise; for a non-binarizable task the label vector is unchanged. -/
theorem c3_label_binarization (task : String) (n : Nat) (samples : List Sample)
    (m : Materialized) (k : Nat) (hok : materialize task n samples = .ok m) :
    (startsWithLab task = true → (∀ s ∈ samples, 0 ≤ s.label) →
      k < samples.length →
      m.y.getD k 0 = if 1 ≤ (samples.getD k dummySample).label then 1 else 0) ∧
    (startsWithLab task = false → m.y = samples.map (fun s => s.label)) := by
  obtain ⟨mr, hraw, -, hy, -⟩ := materialize_ok_parts task n samples m hok
  obtain ⟨hy', -, -, -⟩ := materializeRaw_ok_fields n samples mr hraw
  constructor
  · intro hbin hnn hk
    have hklen : k < mr.y.length := by rw [hy', List.length_map]; exact hk
    rw [hy, binarize_getD task mr.y k hbin hklen, hy', getD_map_label samples k hk]
    have hsl := hnn (samples.getD k dummySample) (getD_mem samples k hk)
    by_cases h1 : 1 ≤ (samples.getD k dummySample).label
    · rw [if_pos h1, if_pos h1]
    · rw [if_neg h1, if_neg h1]
      omega
  · intro hbin
    rw [hy, hy']
    unfold binarize
    rw [hbin]
    simp

/-- Witness for C3 at the spec's §8 example scenario with a `lab_` task:
sample 1 has raw label 2, binarized to 1. -/
theorem c3_witness :
    exM.y.getD 1 0 = if 1 ≤ (exSamples.getD 1 dummySample).label then 1 else 0 :=
  (c3_label_binarization "lab_anemia" 3 exSamples exM 1 (by decide)).1
    (by decide) (by decide) (by decide)

/-- Counterexample for C4 as stated: a sample whose split tag is `"other"` is
materialized, yet the code partitions only for the three fixed names, so the
row lands in none of the produced partitions and the sum of partition sizes
is 0 while the row set has size 1. -/
theorem c4_counterexample :
    materialize "guo_icu" 1 [⟨[], 0, "other"⟩] = .ok ⟨[[0]], [0], ["other"]⟩ ∧
      (partitionOf ⟨[[0]], [0], ["other"]⟩ "train").1.length +
        (partitionOf ⟨[[0]], [0], ["other"]⟩ "val").1.length +
        (partitionOf ⟨[[0]], [0], ["other"]⟩ "test").1.length = 0 := by
  decide

/-- C4 (amended): partitioning is performed only for the three fixed names
`train`, `val`, `test`; when every sample's split tag is one of these, the
three partitions cover the rows exactly once each — their sizes sum to the
total sample count and each row index satisfies exactly one of the three
tag equalities. -/
theorem c4_partition_exact_cover (task : String) (n : Nat) (samples : List Sample)
    (m : Materialized) (k : Nat)
    (hok : materialize task n samples = .ok m)
    (htags : ∀ s ∈ samples, s.split = "train" ∨ s.split = "val" ∨ s.split = "test")
    (hk : k < samples.length) :
    (partitionOf m "train").1.length + (partitionOf m "val").1.length +
        (partitionOf m "test").1.length = samples.length ∧
      ((if m.splits.getD k "" = "train" then 1 else 0) +
        (if m.splits.getD k "" = "val" then 1 else 0) +
        (if m.splits.getD k "" = "test" then 1 else 0) : Nat) = 1 := by
  constructor
  · have hlen : (rowTriples m).length = samples.length :=
      rowTriples_length task n samples m hok
    have hall : ∀ t ∈ rowTriples m,
        ((if (fun t => t.2.2 == "train") t then 1 else 0) +
          (if (fun t => t.2.2 == "val") t then 1 else 0) +
          (if (fun t => t.2.2 == "test") t then 1 else 0) : Nat) = 1 := by
      intro t ht
      exact tag_sum_one t.2.2
        (splits_tag_of_mem task n samples m hok htags t.2.2 (mem_rowTriples_split m t ht))
    have hsum := filter_three_length (fun t => t.2.2 == "train")
      (fun t => t.2.2 == "val") (fun t => t.2.2 == "test") (rowTriples m) hall
    have e1 : (partitionOf m "train").1.length =
        ((rowTriples m).filter (fun t => t.2.2 == "train")).length := by
      simp [partitionOf]
    have e2 : (partitionOf m "val").1.length =
        ((rowTriples m).filter (fun t => t.2.2 == "val")).length := by
      simp [partitionOf]
    have e3 : (partitionOf m "test").1.length =
        ((rowTriples m).filter (fun t => t.2.2 == "test")).length := by
      simp [partitionOf]
    rw [e1, e2, e3]
    omega
  · obtain ⟨-, -, hs⟩ := materialize_lengths task n samples m hok
    have hk' : k < m.splits.length := by rw [hs]; exact hk
    have hmem : m.splits.getD k "" ∈ m.splits := by
      rw [List.getD_eq_getElem _ _ hk']
      exact List.getElem_mem hk'
    exact tag_sum_one_eq _ (splits_tag_of_mem task n samples m hok htags _ hmem)

/-- Witness for C4 (amended) at the spec's §8 example scenario, row 0. -/
theorem c4_witness :
    (partitionOf exM "train").1.length + (partitionOf exM "val").1.length +
        (partitionOf exM "test").1.length = exSamples.length ∧
      ((if exM.splits.getD 0 "" = "train" then 1 else 0) +
        (if exM.splits.getD 0 "" = "val" then 1 else 0) +
        (if exM.splits.getD 0 "" = "test" then 1 else 0) : Nat) = 1 :=
  c4_partition_exact_cover "lab_anemia" 3 exSamples exM 0
    (by decide) (by decide) (by decide)

/-- Counterexample for C5 as stated: the feature index `-1` lies outside
`[0, 3)`, yet materialization completes without error and absorbs the index
into the matrix at the wrapped column 2 (NumPy negative indexing). -/
theorem c5_counterexample :
    materialize "guo_icu" 3 [⟨[-1], 0, "train"⟩] =
        .ok ⟨[[0, 0, 1]], [0], ["train"]⟩ ∧
      ¬(0 ≤ (-1 : Int)) := by
  decide

/-- C5 (amended): for every sample containing a feature index outside
`[-feature_space_size, feature_space_size)`, materialization fails fast with
an index-out-of-range error; an index in `[-feature_space_size, 0)` does not
error but is absorbed at column `index + feature_space_size`. -/
theorem c5_out_of_range_error (task : String) (n : Nat) (samples : List Sample)
    (hbad : ∃ s ∈ samples, ∃ i ∈ s.feature, i < -(n : Int) ∨ (n : Int) ≤ i) :
    materialize task n samples = .error "index out of bounds" := by
  obtain ⟨s, hs, i, hi, hib⟩ := hbad
  exact materialize_err task n samples ⟨s, hs, i, hi, by omega⟩

/-- Witness for C5 (amended): index 5 with feature space 2 errors. -/
theorem c5_witness :
    materialize "guo_icu" 2 [⟨[5], 0, "train"⟩] = .error "index out of bounds" :=
  c5_out_of_range_error "guo_icu" 2 [⟨[5], 0, "train"⟩] (by decide)

/-- C6: with `feature_space_size = 0`, any sample with a non-empty feature
index list makes materialization raise the index-out-of-range error; it never
silently produces a zero-width matrix. -/
theorem c6_zero_width_error (task : String) (samples : List Sample)
    (h : ∃ s ∈ samples, s.feature ≠ []) :
    materialize task 0 samples = .error "index out of bounds" := by
  obtain ⟨s, hs, hne⟩ := h
  obtain ⟨i, hi⟩ := List.exists_mem_of_ne_nil s.feature hne
  exact materialize_err task 0 samples ⟨s, hs, i, hi, by omega⟩

/-- Witness for C6: feature space 0 and one sample with feature index 0. -/
theorem c6_witness :
    materialize "guo_icu" 0 [⟨[0], 0, "train"⟩] = .error "index out of bounds" :=
  c6_zero_width_error "guo_icu" [⟨[0], 0, "train"⟩] (by decide)

/-- C7: materialization is a deterministic function of the task name, the
feature-space size and the input sequence — equal inputs give bit-identical
matrices, label vectors and partitions. -/
theorem c7_deterministic (t₁ t₂ : String) (n₁ n₂ : Nat) (s₁ s₂ : List Sample)
    (tag : String) (m₁ m₂ : Materialized)
    (ht : t₁ = t₂) (hn : n₁ = n₂) (hs : s₁ = s₂)
    (h₁ : materialize t₁ n₁ s₁ = .ok m₁) (h₂ : materialize t₂ n₂ s₂ = .ok m₂) :
    materialize t₁ n₁ s₁ = materialize t₂ n₂ s₂ ∧
      partitionOf m₁ tag = partitionOf m₂ tag := by
  subst ht
  subst hn
  subst hs
  refine ⟨rfl, ?_⟩
  rw [h₁] at h₂
  rw [Except.ok.inj h₂]

/-- Witness for C7 at the spec's §8 example scenario. -/
theorem c7_witness :
    materialize "lab_anemia" 3 exSamples = materialize "lab_anemia" 3 exSamples ∧
      partitionOf exM "train" = partitionOf exM "train" :=
  c7_deterministic "lab_anemia" "lab_anemia" 3 3 exSamples exSamples "train" exM exM
    rfl rfl rfl (by decide) (by decide)

/-- C8: within each named partition, the rows paired with their labels form a
sublist of the full (row, label) sequence, so their relative order equals the
order in the original input sequence. -/
theorem c8_partition_order (task : String) (n : Nat) (samples : List Sample)
    (m : Materialized) (tag : String)
    (hok : materialize task n samples = .ok m) :
    List.Sublist ((partitionOf m tag).1.zip (partitionOf m tag).2)
      (m.X.zip m.y) := by
  obtain ⟨-, hy, hs⟩ := materialize_lengths task n samples m hok
  have hyz : m.y.length = m.splits.length := by rw [hy, hs]
  have hz : (partitionOf m tag).1.zip (partitionOf m tag).2 =
      ((rowTriples m).filter (fun t => t.2.2 == tag)).map (fun t => (t.1, t.2.1)) := by
    simp [partitionOf, List.zip_map']
  rw [hz]
  have hsub := List.Sublist.map (fun t : List Nat × Int × String => (t.1, t.2.1))
    (List.filter_sublist (p := fun t => t.2.2 == tag) (rowTriples m))
  have hmap : (rowTriples m).map (fun t => (t.1, t.2.1)) = m.X.zip m.y := by
    unfold rowTriples
    exact zip_zip_map m.X m.y m.splits hyz
  rwa [hmap] at hsub

/-- Witness for C8 at the spec's §8 example scenario, `train` partition. -/
theorem c8_witness :
    List.Sublist ((partitionOf exM "train").1.zip (partitionOf exM "train").2)
      (exM.X.zip exM.y) :=
  c8_partition_order "lab_anemia" 3 exSamples exM "train" (by decide)

/-- C9: the empty input sequence materializes without error to zero-row
outputs, and every requested partition of that result is empty. -/
theorem c9_empty_input (task : String) (n : Nat) (tag : String) :
    materialize task n [] = .ok ⟨[], [], []⟩ ∧
      partitionOf ⟨[], [], []⟩ tag = ([], []) := by
  constructor
  · show materialize task n [] = .ok ⟨[], [], []⟩
    simp [materialize, materializeRaw, binarize]
  · rfl

/-- C10: every entry of a produced feature matrix is 0 or 1, and the row
built from an in-range index list equals the row built from the same list
with duplicates removed (assignment of 1 is idempotent). -/
theorem c10_entries_binary (task : String) (n : Nat) (samples : List Sample)
    (m : Materialized) (idxs : List Int) (row : List Nat) (v : Nat)
    (hok : materialize task n samples = .ok m)
    (hrow : row ∈ m.X) (hv : v ∈ row)
    (hin : ∀ i ∈ idxs, 0 ≤ i ∧ i < (n : Int)) :
    (v = 0 ∨ v = 1) ∧ multiHot n idxs = multiHot n idxs.dedup := by
  constructor
  · obtain ⟨mr, hraw, hX, -, -⟩ := materialize_ok_parts task n samples m hok
    obtain ⟨-, -, hlen, hrows⟩ := materializeRaw_ok_fields n samples mr hraw
    rw [hX] at hrow
    obtain ⟨k, hkX, hrowk⟩ := List.mem_iff_getElem.mp hrow
    have hks : k < samples.length := by rw [← hlen]; exact hkX
    have hmh := hrows k hks
    have hgd : mr.X.getD k [] = row := by
      rw [List.getD_eq_getElem _ _ hkX]
      exact hrowk
    rw [hgd] at hmh
    exact multiHot_binary n _ row hmh v hv
  · have hin' : ∀ i ∈ idxs, -(n : Int) ≤ i ∧ i < n := by
      intro i hi
      have := hin i hi
      omega
    have hin'' : ∀ i ∈ idxs.dedup, -(n : Int) ≤ i ∧ i < n :=
      fun i hi => hin' i (List.mem_dedup.mp hi)
    obtain ⟨v₁, hv₁, hl₁, hc₁⟩ :=
      applyIndices_ok n idxs hin' (List.replicate n 0) (List.length_replicate n 0)
    obtain ⟨v₂, hv₂, hl₂, hc₂⟩ :=
      applyIndices_ok n idxs.dedup hin'' (List.replicate n 0) (List.length_replicate n 0)
    have hv12 : v₁ = v₂ := by
      apply List.ext_getElem (by rw [hl₁, hl₂])
      intro c h₁ h₂
      have hcn : c < n := by rw [← hl₁]; exact h₁
      have e₁ := hc₁ c hcn
      have e₂ := hc₂ c hcn
      rw [List.getD_eq_getElem _ _ h₁] at e₁
      rw [List.getD_eq_getElem _ _ h₂] at e₂
      rw [e₁, e₂]
      have hmemiff : (∃ i ∈ idxs, normIdx n i = c) ↔
          (∃ i ∈ idxs.dedup, normIdx n i = c) := by
        constructor
        · rintro ⟨i, hi, hic⟩
          exact ⟨i, List.mem_dedup.mpr hi, hic⟩
        · rintro ⟨i, hi, hic⟩
          exact ⟨i, List.mem_dedup.mp hi, hic⟩
      exact if_congr hmemiff rfl rfl
    show multiHot n idxs = multiHot n idxs.dedup
    unfold multiHot
    rw [hv₁, hv₂, hv12]

/-- Witness for C10: entry 1 of row 0 of the §8 example, and the index list
`[0, 0, 2]` with a duplicate against its deduplication. -/
theorem c10_witness :
    ((1 : Nat) = 0 ∨ (1 : Nat) = 1) ∧
      multiHot 3 [0, 0, 2] = multiHot 3 ([0, 0, 2] : List Int).dedup :=
  c10_entries_binary "lab_anemia" 3 exSamples exM [0, 0, 2] [1, 0, 1] 1
    (by decide) (by decide) (by decide) (by decide)
